import Mathlib

/-!
Verification development for the batch DOCX exporter
(`src/ia_provider/exporter.py`).

The Python module is shallowly embedded:

* Python dicts used as style descriptors / registries / batch records are
  association lists with first-match lookup (Python dict keys are unique, so
  first-match lookup agrees with dict lookup; `a ++ b`-style merge orders are
  chosen so that lookup agrees with the corresponding dict expression).
* The HTML element tree produced by `xml.etree.ElementTree` is the inductive
  `Elem` (tag, text, attributes, children, tail).
* The python-docx document is a list of `Block`s; a run records its text and
  the font properties the converter sets on it.
* The external Markdown renderer (`markdown.Markdown.convert`) and the XML
  parser (`ElementTree.fromstring`) are parameters of the embedding
  (`Ext`), since they are external collaborators of the module.
* Fallible operations return `Except Unit`; a raised exception that
  propagates out of `generer_export_docx` is the `.error` case (no byte
  stream is produced).
-/

namespace Exporter

/-- A Python value appearing inside a style dictionary
(`font_name`, `font_size`, `font_color_rgb`, `is_bold`, `is_italic`, ...).
Numbers are modelled as naturals, colours as triples of channel values. -/
inductive SVal where
  | s (v : String)
  | n (v : Nat)
  | rgb (r g b : Nat)
  | b (v : Bool)
deriving Repr, DecidableEq

/-- Python truthiness for the embedded style values (`if v:`).
An empty string, zero, and `False` are falsy; a 3-tuple is always truthy. -/
def SVal.truthy : SVal → Bool
  | .s v => v ≠ ""
  | .n v => v ≠ 0
  | .rgb _ _ _ => true
  | .b v => v

/-- A style dictionary: a Python `dict` of style attributes, embedded as an
association list with first-match lookup. -/
abbrev StyleDict := List (String × SVal)

/-- A style registry: the `styles` dictionary passed to the converter,
mapping a style name (for example `"prompt"`, `"response"`) to a style
dictionary. -/
abbrev StylesReg := List (String × StyleDict)

/-- `d.get(k)` on an embedded dict: value of the first entry with key `k`. -/
def dlookup (d : StyleDict) (k : String) : Option SVal :=
  (d.find? (fun p => p.1 == k)).map (·.2)

/-- `d.get(k, default)` on an embedded dict. -/
def dget (d : StyleDict) (k : String) (default : SVal) : SVal :=
  (dlookup d k).getD default

/-- Lookup of a style name in the registry (`self.styles.get(style_name)`),
without the empty-dict default. -/
def regLookup (styles : StylesReg) (k : String) : Option StyleDict :=
  (styles.find? (fun p => p.1 == k)).map (·.2)

/-- `self.styles.get(style_name, {})`: the base style dictionary for a name,
the empty dictionary when the name is absent. -/
def regGet (styles : StylesReg) (k : String) : StyleDict :=
  (regLookup styles k).getD []

/-- The Python merge `{**base, **overrides}` (override wins on key
collision), embedded so that first-match lookup agrees with dict lookup:
entries of `base` whose key also occurs in `overrides` are dropped, and the
`overrides` entries are placed behind the remaining `base` entries. -/
def dictMerge (base overrides : StyleDict) : StyleDict :=
  base.filter (fun p => (dlookup overrides p.1).isNone) ++ overrides

/-- `style = {**self.styles.get(style_name, {}), **(style_overrides or {})}`
from `MarkdownToDocxConverter._apply_style`. -/
def resolveStyle (styles : StylesReg) (styleName : String) (overrides : StyleDict) :
    StyleDict :=
  dictMerge (regGet styles styleName) overrides

/-- The font properties `_apply_style` (and the later `Consolas` tweaks) set
on a python-docx run.  A `none` field was never assigned and keeps the
library default. -/
structure RunProps where
  fontName : Option SVal := none
  eastAsia : Option SVal := none
  fontSize : Option SVal := none
  fontColor : Option SVal := none
  bold : Option SVal := none
  italic : Option SVal := none
deriving Repr, DecidableEq

/-- Keep a value only when it is truthy: models `if v := style.get(k):`. -/
def keepTruthy : Option SVal → Option SVal
  | some v => if v.truthy then some v else none
  | none => none

/-- `MarkdownToDocxConverter._apply_style(run, style_overrides, style_name)`:
resolve the effective style dictionary and assign the run's font
properties.  Font name (together with its East-Asian slot), size and colour
are assigned only when the looked-up value is truthy; bold and italic are
always assigned, defaulting to `False`. -/
def applyStyleProps (styles : StylesReg) (styleName : String)
    (overrides : StyleDict) : RunProps :=
  let style := resolveStyle styles styleName overrides
  { fontName := keepTruthy (dlookup style "font_name")
    eastAsia := keepTruthy (dlookup style "font_name")
    fontSize := keepTruthy (dlookup style "font_size")
    fontColor := keepTruthy (dlookup style "font_color_rgb")
    bold := some (dget style "is_bold" (.b false))
    italic := some (dget style "is_italic" (.b false)) }

/-- A text run inside a paragraph. -/
structure Run where
  text : String
  props : RunProps
deriving Repr, DecidableEq

/-- A run created by python-docx itself (`add_paragraph(text, ...)`,
`add_heading(text, ...)`), on which `_apply_style` is never called: no font
property is assigned. -/
def plainRun (text : String) : Run := ⟨text, {}⟩

/-- An `xml.etree.ElementTree` element of the HTML fragment produced by the
Markdown renderer: tag, direct text, attributes, ordered children, and tail
text (text between this element and its next sibling). `text`/`tail` are
`none` when the attribute is Python `None`. -/
inductive Elem where
  | mk (tag : String) (text : Option String) (attrib : List (String × String))
       (children : List Elem) (tail : Option String)

def Elem.tag : Elem → String
  | .mk t _ _ _ _ => t

def Elem.text : Elem → Option String
  | .mk _ tx _ _ _ => tx

def Elem.attrib : Elem → List (String × String)
  | .mk _ _ a _ _ => a

def Elem.children : Elem → List Elem
  | .mk _ _ _ c _ => c

def Elem.tail : Elem → Option String
  | .mk _ _ _ _ tl => tl

/-- `elem.get(key, default)`: attribute lookup on an element. -/
def Elem.attrGet (e : Elem) (k : String) (default : String) : String :=
  ((e.attrib.find? (fun p => p.1 == k)).map (·.2)).getD default

/-- `elem.findall(tag)`: the direct children with the given tag, in document
order. -/
def Elem.findall (e : Elem) (t : String) : List Elem :=
  e.children.filter (fun c => c.tag == t)

/-- Python truthiness of an optional string (`if node.text:`):
`None` and the empty string are falsy. -/
def truthyStr : Option String → Bool
  | some s => s ≠ ""
  | none => false

/-- One run carrying an optional piece of text, emitted only when the text
is truthy (`if node.text: ... add_run(node.text)`). -/
def optRun (text : Option String) (props : RunProps) : List Run :=
  if truthyStr text then [⟨text.getD "", props⟩] else []

mutual
/-- `"".join(elem.itertext())`: all text of the subtree in document order
(direct text, then recursively each child's text followed by its tail). -/
def itertext : Elem → String
  | .mk _ text _ children _ => (text.getD "") ++ itertextSeq children

def itertextSeq : List Elem → String
  | [] => ""
  | c :: rest => itertext c ++ (c.tail.getD "") ++ itertextSeq rest
end

mutual
/-- `MarkdownToDocxConverter._add_inline(paragraph, node)`: the runs the
inline renderer appends to the paragraph for one node, in order.  Every
`_apply_style` call inside `_add_inline` uses the default base style name
`"response"`. -/
def addInline (styles : StylesReg) : Elem → List Run
  | .mk _ text _ children _ =>
    optRun text (applyStyleProps styles "response" [])
      ++ addInlineSeq styles children

/-- The `for child in list(node):` loop of `_add_inline`: the runs for one
child (dispatch on its tag), then its tail run if the tail is truthy, then
the following children. -/
def addInlineSeq (styles : StylesReg) : List Elem → List Run
  | [] => []
  | c :: rest =>
    (if c.tag = "strong" ∨ c.tag = "b" then
      [⟨c.text.getD "", applyStyleProps styles "response" [("is_bold", .b true)]⟩]
    else if c.tag = "em" ∨ c.tag = "i" then
      [⟨c.text.getD "", applyStyleProps styles "response" [("is_italic", .b true)]⟩]
    else if c.tag = "code" then
      [⟨c.text.getD "",
        { applyStyleProps styles "response" [] with
            fontName := some (.s "Consolas"), eastAsia := some (.s "Consolas") }⟩]
    else if c.tag = "a" then
      let text := c.text.getD ""
      let href := c.attrGet "href" ""
      [⟨text, applyStyleProps styles "response" []⟩]
        ++ (if href ≠ "" ∧ href ≠ text then
              [⟨" (" ++ href ++ ")", applyStyleProps styles "response" []⟩]
            else [])
    else
      addInline styles c)
      ++ optRun c.tail (applyStyleProps styles "response" [])
      ++ addInlineSeq styles rest
end

/-- The cell paragraphs of one table, row-major: `cells r c` is the run list
of the default paragraph of cell `(r, c)`. -/
abbrev Grid := List (List (List Run))

/-- A top-level block of the python-docx document: a paragraph with an
optional named style, a heading, a table, or a page break. -/
inductive Block where
  | para (style : Option String) (runs : List Run)
  | heading (level : Nat) (runs : List Run)
  | table (nrows ncols : Nat) (cells : Grid)
  | pageBreak
deriving Repr, DecidableEq

/-- Modelled from the spec: the document-model capability addresses a table
cell by `(row, column)` inside the R×C grid created by `add_table`; the spec
does not define addressing outside the grid, which is modelled as a no-op
(`List.set` out of range leaves the list unchanged). -/
def setCell (g : Grid) (r c : Nat) (runs : List Run) : Grid :=
  g.set r ((g.getD r []).set c runs)

/-- Read back a cell's runs (an out-of-range cell reads as empty). -/
def getCell (g : Grid) (r c : Nat) : List Run :=
  (g.getD r []).getD c []

/-- The fresh R×C table created by `doc.add_table(rows, cols)`: every cell
holds one empty default paragraph. -/
def initGrid (r c : Nat) : Grid :=
  List.replicate r (List.replicate c [])

/-- `cells = row.findall("th") or row.findall("td")`: the header cells of a
row if any, else its data cells. -/
def cellsOf (row : Elem) : List Elem :=
  let th := row.findall "th"
  if th.isEmpty then row.findall "td" else th

/-- The inner `for c_idx, cell in enumerate(cells):` loop of the `table`
branch: render each cell's inline content into the cell paragraph at
`(r, cIdx)`, `cIdx` counting up from the given start. -/
def fillRow (styles : StylesReg) (g : Grid) (r : Nat) (cIdx : Nat) :
    List Elem → Grid
  | [] => g
  | cell :: rest =>
      fillRow styles (setCell g r cIdx (addInline styles cell)) r (cIdx + 1) rest

/-- The outer `for r_idx, row in enumerate(rows):` loop of the `table`
branch. -/
def fillRows (styles : StylesReg) (g : Grid) (rIdx : Nat) : List Elem → Grid
  | [] => g
  | row :: rest => fillRows styles (fillRow styles g rIdx 0 (cellsOf row)) (rIdx + 1) rest

/-- `len(rows[0].findall("th")) or len(rows[0].findall("td"))`: the column
count taken from the first row. -/
def tableCols (firstRow : Elem) : Nat :=
  let thn := (firstRow.findall "th").length
  if thn ≠ 0 then thn else (firstRow.findall "td").length

/-- `int(tag[1])` for the heading tags `h1` .. `h6`. -/
def headingLevel (tag : String) : Nat :=
  if tag = "h1" then 1 else if tag = "h2" then 2 else if tag = "h3" then 3
  else if tag = "h4" then 4 else if tag = "h5" then 5 else 6

/-- sizeOf of a filtered list never exceeds sizeOf of the list (needed for
termination of the block renderer, which recurses into `findall` results). -/
theorem sizeOf_filter_le {p : Elem → Bool} :
    ∀ l : List Elem, sizeOf (l.filter p) ≤ sizeOf l := by
  intro l
  induction l with
  | nil => simp
  | cons c rest ih =>
      by_cases h : p c <;> simp [List.filter_cons, h] <;> omega

mutual
/-- `MarkdownToDocxConverter._process_element(elem, list_style)`: the blocks
the block renderer appends to the document for one element. -/
def processElement (styles : StylesReg) (e : Elem) (listStyle : Option String) :
    List Block :=
  match e with
  | .mk tag text _attrib children _tail =>
    if tag = "p" ∨ tag = "li" then
      Block.para listStyle (addInline styles (.mk tag text _attrib children _tail))
        :: processNested styles children
    else if tag = "h1" ∨ tag = "h2" ∨ tag = "h3" ∨ tag = "h4" ∨ tag = "h5" ∨ tag = "h6" then
      [Block.heading (headingLevel tag)
        (addInline styles (.mk tag text _attrib children _tail))]
    else if tag = "ul" then
      processLis styles children "List Bullet"
    else if tag = "ol" then
      processLis styles children "List Number"
    else if tag = "pre" then
      let codeText := (itertext (.mk tag text _attrib children _tail)).trim
      [Block.para none
        [⟨codeText,
          { applyStyleProps styles "response" [] with
              fontName := some (.s "Consolas"), eastAsia := some (.s "Consolas") }⟩]]
    else if tag = "table" then
      let rows := children.filter (fun c => c.tag == "tr")
      match rows with
      | [] => []
      | firstRow :: _ =>
          let cols := tableCols firstRow
          [Block.table rows.length cols
            (fillRows styles (initGrid rows.length cols) 0 rows)]
    else
      if truthyStr text then
        [Block.para none (addInline styles (.mk tag text _attrib children _tail))]
      else []

/-- The trailing `for child in list(elem):` loop of the `p`/`li` branch:
nested `ul`/`ol` children are re-dispatched with the matching list style. -/
def processNested (styles : StylesReg) : List Elem → List Block
  | [] => []
  | c :: rest =>
      (if c.tag = "ul" then processElement styles c (some "List Bullet")
       else if c.tag = "ol" then processElement styles c (some "List Number")
       else [])
        ++ processNested styles rest

/-- The `for li in elem.findall("li"):` loops of the `ul`/`ol` branches,
with `findall` fused into the loop: children whose tag is not `li` are
skipped, the `li` children are dispatched with the given list style, in
document order. -/
def processLis (styles : StylesReg) : List Elem → String → List Block
  | [], _ => []
  | c :: rest, sty =>
      (if c.tag == "li" then processElement styles c (some sty) else [])
        ++ processLis styles rest sty
end

/-- The external collaborators of `add_markdown`:
`markdown.Markdown(extensions=["fenced_code", "tables"]).convert` renders
Markdown text to an HTML fragment string, and
`xml.etree.ElementTree.fromstring` parses a string into an element tree
(`none` when the string is not well-formed XML, modelling the raised
`ParseError`). -/
structure Ext where
  mdConvert : String → String
  parseTree : String → Option Elem

/-- `ET.fromstring(f"<root>...</root>")`: the string handed to the XML
parser. -/
def wrapRoot (html : String) : String :=
  "<root>" ++ html ++ "</root>"

/-- `MarkdownToDocxConverter.add_markdown(text)`, result restricted to the
blocks appended: no-op on empty text, otherwise render to HTML, parse under
a synthetic root (a parse failure propagates), and process every top-level
child of the root. -/
def addMarkdownBlocks (ext : Ext) (styles : StylesReg) (text : String) :
    Except Unit (List Block) :=
  if text = "" then .ok []
  else
    match ext.parseTree (wrapRoot (ext.mdConvert text)) with
    | none => .error ()
    | some root => .ok (root.children.flatMap (fun e => processElement styles e none))

/-- `add_markdown` acting on a document: the new blocks are appended behind
the blocks the document already holds. -/
def addMarkdown (ext : Ext) (styles : StylesReg) (doc : List Block)
    (text : String) : Except Unit (List Block) :=
  if text = "" then .ok doc
  else (addMarkdownBlocks ext styles text).map (fun bs => doc ++ bs)

/-- A Python value stored in a batch-record field (status, prompt, response,
error payload): `None`, a string, an integer, a boolean, a dict with string
keys, or a list. -/
inductive PyVal where
  | none
  | str (s : String)
  | int (n : Int)
  | bool (b : Bool)
  | dict (fields : List (String × PyVal))
  | list (items : List PyVal)

/-- Python truthiness of an embedded value. -/
def PyVal.truthy : PyVal → Bool
  | .none => false
  | .str s => s ≠ ""
  | .int n => n ≠ 0
  | .bool b => b
  | .dict fs => ¬fs.isEmpty
  | .list l => ¬l.isEmpty

/-- `isinstance(err, dict)`. -/
def PyVal.isDict : PyVal → Bool
  | .dict _ => true
  | _ => false

/-- Modelled from the spec: the JSON string escaping performed by the
standard library's `json.dumps` with `ensure_ascii=False` (the stdlib
serializer is an external capability): backslash, double quote and control
characters are escaped, everything else is passed through. -/
def jsonEscapeChar (c : Char) : String :=
  if c = '"' then "\\\""
  else if c = '\\' then "\\\\"
  else if c = '\n' then "\\n"
  else if c = '\r' then "\\r"
  else if c = '\t' then "\\t"
  else if c = '\x08' then "\\b"
  else if c = '\x0c' then "\\f"
  else if c.toNat < 0x20 then
    "\\u00" ++ String.mk [Nat.digitChar (c.toNat / 16), Nat.digitChar (c.toNat % 16)]
  else String.mk [c]

def jsonEscape (s : String) : String :=
  String.join (s.toList.map jsonEscapeChar)

/-- `indent * " "` at a nesting level of the 2-space-indented dump. -/
def jsonIndent (level : Nat) : String :=
  String.mk (List.replicate (2 * level) ' ')

mutual
/-- Modelled from the spec: `json.dumps(v, ensure_ascii=False, indent=2)`
(the stdlib serializer is an external capability) at a nesting level:
scalars are emitted inline; a non-empty container opens its bracket, puts
every entry on its own line indented two further spaces, and closes the
bracket at the enclosing indentation. -/
def jsonDumpsAt : PyVal → Nat → String
  | .none, _ => "null"
  | .str s, _ => "\"" ++ jsonEscape s ++ "\""
  | .int n, _ => toString n
  | .bool b, _ => if b then "true" else "false"
  | .dict [], _ => "\x7b\x7d"
  | .dict (f :: fs), level =>
      "\x7b\n" ++ jsonDumpsFields (f :: fs) (level + 1) ++ "\n"
        ++ jsonIndent level ++ "\x7d"
  | .list [], _ => "[]"
  | .list (v :: vs), level =>
      "[\n" ++ jsonDumpsItems (v :: vs) (level + 1) ++ "\n"
        ++ jsonIndent level ++ "]"

def jsonDumpsFields : List (String × PyVal) → Nat → String
  | [], _ => ""
  | [(k, v)], level =>
      jsonIndent level ++ "\"" ++ jsonEscape k ++ "\": " ++ jsonDumpsAt v level
  | (k, v) :: f :: fs, level =>
      jsonIndent level ++ "\"" ++ jsonEscape k ++ "\": " ++ jsonDumpsAt v level
        ++ ",\n" ++ jsonDumpsFields (f :: fs) level

def jsonDumpsItems : List PyVal → Nat → String
  | [], _ => ""
  | [v], level => jsonIndent level ++ jsonDumpsAt v level
  | v :: w :: vs, level =>
      jsonIndent level ++ jsonDumpsAt v level ++ ",\n" ++ jsonDumpsItems (w :: vs) level
end

/-- `json.dumps(err, ensure_ascii=False, indent=2)`. -/
def jsonDumps (v : PyVal) : String := jsonDumpsAt v 0

/-- Modelled from the spec: Python `repr` string escaping for the embedded
value subset (single-quoted form; backslash, quote and the common control
characters escaped). -/
def pyReprEscapeChar (c : Char) : String :=
  if c = '\\' then "\\\\"
  else if c = '\'' then "\\'"
  else if c = '\n' then "\\n"
  else if c = '\r' then "\\r"
  else if c = '\t' then "\\t"
  else if c.toNat < 0x20 then
    "\\x" ++ String.mk [Nat.digitChar (c.toNat / 16), Nat.digitChar (c.toNat % 16)]
  else String.mk [c]

mutual
/-- Modelled from the spec: Python `repr` on the embedded value subset. -/
def pyRepr : PyVal → String
  | .none => "None"
  | .str s => "'" ++ String.join (s.toList.map pyReprEscapeChar) ++ "'"
  | .int n => toString n
  | .bool b => if b then "True" else "False"
  | .dict fs => "\x7b" ++ pyReprFields fs ++ "\x7d"
  | .list l => "[" ++ pyReprItems l ++ "]"

def pyReprFields : List (String × PyVal) → String
  | [] => ""
  | [(k, v)] => pyRepr (.str k) ++ ": " ++ pyRepr v
  | (k, v) :: f :: fs => pyRepr (.str k) ++ ": " ++ pyRepr v ++ ", " ++ pyReprFields (f :: fs)

def pyReprItems : List PyVal → String
  | [] => ""
  | [v] => pyRepr v
  | v :: w :: vs => pyRepr v ++ ", " ++ pyReprItems (w :: vs)
end

/-- Modelled from the spec: Python `str` on the embedded value subset
(identity on strings, `repr`-like elsewhere). -/
def pyStr : PyVal → String
  | .str s => s
  | v => pyRepr v

/-- A batch record after `dict(res)`: a Python dict embedded as an
association list with first-match lookup. -/
abbrev Rec := List (String × PyVal)

/-- `res.get(k)` on a record. -/
def recLookup (item : Rec) (k : String) : Option PyVal :=
  (item.find? (fun p => p.1 == k)).map (·.2)

/-- `res.get(k, default)` on a record. -/
def recGet (item : Rec) (k : String) (default : PyVal) : PyVal :=
  (recLookup item k).getD default

/-- `data.get("status") == "succeeded"`: the classification predicate.
Python equality between a non-string value and the string marker is
`False`. -/
def isSucc (item : Rec) : Bool :=
  match recLookup item "status" with
  | some (.str s) => s == "succeeded"
  | _ => false

/-- `item.get("clean_response") or item.get("response", "")`: the Markdown
text rendered for a succeeded record.  Python `or` yields the left operand
when it is truthy, the right one otherwise. -/
def responseTextOf (item : Rec) : PyVal :=
  let cr := recGet item "clean_response" .none
  if cr.truthy then cr else recGet item "response" (.str "")

/-- Modelled from the spec: the document-model run primitive
(`paragraph.add_run(text)`) accepts a text string; handing it a non-string
value raises, which propagates out of the export. -/
def runText : PyVal → Except Unit String
  | .str s => .ok s
  | _ => .error ()

/-- `add_markdown` invoked on the raw response value: a falsy value is the
`if not text: return` no-op; a truthy non-string cannot be rendered by the
Markdown collaborator and raises. -/
def addMarkdownVal (ext : Ext) (styles : StylesReg) (v : PyVal) :
    Except Unit (List Block) :=
  if ¬v.truthy then .ok []
  else
    match v with
    | .str s => addMarkdownBlocks ext styles s
    | _ => .error ()

/-- The main-section blocks for one succeeded record: a paragraph holding
the prompt text styled with the `"prompt"` base style, the converted
response Markdown, and one empty separator paragraph. -/
def succBlock (ext : Ext) (styles : StylesReg) (item : Rec) :
    Except Unit (List Block) := do
  let pt ← runText (recGet item "prompt_text" (.str ""))
  let mdBlocks ← addMarkdownVal ext styles (responseTextOf item)
  .ok ([Block.para none [⟨pt, applyStyleProps styles "prompt" []⟩]]
        ++ mdBlocks ++ [Block.para none []])

/-- `item.get("prompt_text") or item.get("custom_id")`. -/
def failTitle (item : Rec) : PyVal :=
  let pt := recGet item "prompt_text" .none
  if pt.truthy then pt else recGet item "custom_id" .none

/-- The error paragraph of one failed record: the payload is serialized
with `json.dumps(..., ensure_ascii=False, indent=2)` when it is a dict,
then `str(...)` of the result becomes the paragraph text
(`add_paragraph` adds a run only for truthy text). -/
def errPara (item : Rec) : Block :=
  let err := recGet item "error" .none
  let errStr := pyStr (if err.isDict then .str (jsonDumps err) else err)
  Block.para none (if errStr ≠ "" then [plainRun errStr] else [])

/-- The annex blocks for one failed record: a `List Bullet` paragraph with
the record's title, then the error paragraph. -/
def failBlock (item : Rec) : Except Unit (List Block) := do
  let title := failTitle item
  let titleRuns ←
    if title.truthy then do
      let t ← runText title
      .ok [plainRun t]
    else .ok ([] : List Run)
  .ok [Block.para (some "List Bullet") titleRuns, errPara item]

/-- `doc.add_heading("Annexe - Requêtes échouées", level=1)`. -/
def annexHeading : Block :=
  Block.heading 1 [plainRun "Annexe - Requêtes échouées"]

/-- The caller-owned inputs of `generer_export_docx`. -/
structure ExportInputs where
  resultats : List Rec
  styles : StylesReg

/-- `generer_export_docx(resultats, styles)` written in a state monad over
the caller-owned inputs, so that (non-)mutation of the inputs is an
explicit fact about the final state.  The body only ever reads the state:
`dict(res)` shallow-copies each record before use (the identity on embedded
values), the partition preserves the input relative order within each
class, the succeeded blocks come first, and a non-empty failed partition
appends one page break, the annex heading and the per-failure blocks.  The
returned document stands for the serialized byte stream; a raised exception
is the `.error` case, in which no byte stream is produced. -/
def genererM (ext : Ext) : StateM ExportInputs (Except Unit (List Block)) := do
  let st ← get
  let datas := st.resultats
  let succeeded := datas.filter isSucc
  let failed := datas.filter (fun r => ¬isSucc r)
  pure (do
    let succParts ← succeeded.mapM (succBlock ext st.styles)
    let annex ←
      if failed.isEmpty then .ok ([] : List Block)
      else do
        let failParts ← failed.mapM failBlock
        .ok ([Block.pageBreak, annexHeading] ++ failParts.flatten)
    .ok (succParts.flatten ++ annex))

/-- The export entry point: run the assembler on the inputs and keep the
resulting byte stream (the final document). -/
def genererExportDocx (ext : Ext) (resultats : List Rec) (styles : StylesReg) :
    Except Unit (List Block) :=
  ((genererM ext).run ⟨resultats, styles⟩).1

/-- A truthy optional string as a one-element list. -/
def optText : Option String → List String
  | some s => if s = "" then [] else [s]
  | none => []

mutual
/-- The document-order sequence of truthy leaf texts of a tree: the node's
direct text, then for each child its texts followed by its tail text.  The
root's own tail is excluded (it belongs to the enclosing tree). -/
def docTexts : Elem → List String
  | .mk _ text _ children _ => optText text ++ seqTexts children

def seqTexts : List Elem → List String
  | [] => []
  | c :: rest => docTexts c ++ optText c.tail ++ seqTexts rest
end

/-- The tags excluded by the claim: `table`, `ul`, `ol`, `pre`, headings. -/
def bannedTag (t : String) : Bool :=
  t == "table" || t == "ul" || t == "ol" || t == "pre" ||
  t == "h1" || t == "h2" || t == "h3" || t == "h4" || t == "h5" || t == "h6"

mutual
/-- No node of the tree carries one of the excluded tags. -/
def noBannedB : Elem → Bool
  | .mk tag _ _ children _ => !bannedTag tag && noBannedSeq children

def noBannedSeq : List Elem → Bool
  | [] => true
  | c :: rest => noBannedB c && noBannedSeq rest
end

/-- The inline tags whose branch of `_add_inline` reads only the child's
direct text: any child element below them is dropped by the renderer. -/
def opaqueInlineTag (t : String) : Bool :=
  t == "strong" || t == "b" || t == "em" || t == "i" || t == "code" || t == "a"

mutual
/-- Every `strong`/`b`/`em`/`i`/`code`/`a` node of the tree is childless,
and every `a` node's `href` is empty or equal to its visible text (so no
annotation run is added). -/
def inlineOkB : Elem → Bool
  | .mk tag text attrib children tail =>
    (!opaqueInlineTag tag || children.isEmpty)
      && (!(tag == "a")
          || ((Elem.mk tag text attrib children tail).attrGet "href" "" == ""
              || (Elem.mk tag text attrib children tail).attrGet "href" "" == text.getD ""))
      && inlineOkSeq children

def inlineOkSeq : List Elem → Bool
  | [] => true
  | c :: rest => inlineOkB c && inlineOkSeq rest
end

/-- The root is dispatched to a text-preserving branch of
`_process_element`: it is a `p`/`li` element, or its direct text is truthy
(so the fallback branch renders it instead of dropping it). -/
def rootOkB (e : Elem) : Bool :=
  e.tag == "p" || e.tag == "li" || truthyStr e.text

/-- The texts of the runs of one block, in order. -/
def blockTexts : Block → List String
  | .para _ runs => runs.map Run.text
  | .heading _ runs => runs.map Run.text
  | .table _ _ cells => cells.flatMap (fun row => row.flatMap (fun runs => runs.map Run.text))
  | .pageBreak => []

/-- The non-empty run texts of a list of blocks, in document order. -/
def renderedTexts (blocks : List Block) : List String :=
  (blocks.flatMap blockTexts).filter (fun s => s ≠ "")

/-- The text of a paragraph block: the concatenation of its run texts. -/
def blockText (b : Block) : String :=
  String.join (blockTexts b)

/-! ## Lemmas about the embedded dictionaries -/

theorem find?_filter_absent {overrides : StyleDict} {k : String} {v : SVal}
    (base : StyleDict) (h : dlookup overrides k = some v) :
    (base.filter (fun p => (dlookup overrides p.1).isNone)).find?
      (fun p => p.1 == k) = none := by
  induction base with
  | nil => rfl
  | cons p rest ih =>
      rw [List.filter_cons]
      by_cases hq : (dlookup overrides p.1).isNone
      · rw [if_pos hq]
        have hk : (p.1 == k) = false := by
          by_contra hc
          rw [Bool.not_eq_false] at hc
          rw [eq_of_beq hc, h] at hq
          simp at hq
        simp only [List.find?_cons, hk]
        exact ih
      · rw [if_neg hq]
        exact ih

theorem find?_filter_kept {overrides : StyleDict} {k : String}
    (base : StyleDict) (h : dlookup overrides k = none) :
    (base.filter (fun p => (dlookup overrides p.1).isNone)).find?
      (fun p => p.1 == k) = base.find? (fun p => p.1 == k) := by
  induction base with
  | nil => rfl
  | cons p rest ih =>
      rw [List.filter_cons]
      by_cases hk : (p.1 == k) = true
      · have hq : (dlookup overrides p.1).isNone := by
          rw [eq_of_beq hk, h]; rfl
        rw [if_pos hq]
        simp only [List.find?_cons, hk]
      · have hk' : (p.1 == k) = false := by simpa using hk
        simp only [List.find?_cons, hk']
        rw [← ih]
        by_cases hq : (dlookup overrides p.1).isNone
        · rw [if_pos hq]
          simp only [List.find?_cons, hk']
        · rw [if_neg hq]

theorem dlookup_merge_present {overrides : StyleDict} {k : String} {v : SVal}
    (base : StyleDict) (h : dlookup overrides k = some v) :
    dlookup (dictMerge base overrides) k = some v := by
  rw [dictMerge, dlookup, List.find?_append, find?_filter_absent base h,
    Option.none_or]
  exact h

theorem dlookup_merge_absent {overrides : StyleDict} {k : String}
    (base : StyleDict) (h : dlookup overrides k = none) :
    dlookup (dictMerge base overrides) k = dlookup base k := by
  have hO : overrides.find? (fun p => p.1 == k) = none := by
    rw [dlookup] at h
    exact Option.map_eq_none'.mp h
  rw [dictMerge, dlookup, List.find?_append, find?_filter_kept base h, hO,
    Option.or_none]
  rfl

/-! ## C2: style resolution -/

/-- C2.  For every style registry, base style name `n` and override mapping
`O`: every key present in `O` resolves to `O`'s value, every key absent
from `O` resolves to the base descriptor's value; and on a missing name
with empty overrides the applied style has bold and italic explicitly
`False` and every other font property left unset. -/
theorem c2_style_resolution :
    (∀ (styles : StylesReg) (n : String) (overrides : StyleDict) (k : String) (v : SVal),
        dlookup overrides k = some v →
        dlookup (resolveStyle styles n overrides) k = some v)
    ∧ (∀ (styles : StylesReg) (n : String) (overrides : StyleDict) (k : String),
        dlookup overrides k = none →
        dlookup (resolveStyle styles n overrides) k = dlookup (regGet styles n) k)
    ∧ (∀ (styles : StylesReg) (n : String),
        regLookup styles n = none →
        applyStyleProps styles n [] =
          { fontName := none, eastAsia := none, fontSize := none, fontColor := none,
            bold := some (.b false), italic := some (.b false) }) := by
  refine ⟨?_, ?_, ?_⟩
  · intro styles n overrides k v h
    exact dlookup_merge_present _ h
  · intro styles n overrides k h
    exact dlookup_merge_absent _ h
  · intro styles n h
    simp [applyStyleProps, resolveStyle, regGet, h, dictMerge, dlookup, dget,
      keepTruthy]

/-- Witness for C2 at concrete inputs. -/
theorem c2_style_resolution_witness :
    dlookup
        (resolveStyle [("base", [("font_size", .n 12)])] "base" [("is_bold", .b true)])
        "is_bold" = some (.b true)
    ∧ dlookup
        (resolveStyle [("base", [("font_size", .n 12)])] "base" [("is_bold", .b true)])
        "font_size"
      = dlookup (regGet [("base", [("font_size", .n 12)])] "base") "font_size"
    ∧ applyStyleProps [("base", [("font_size", .n 12)])] "missing" [] =
        { fontName := none, eastAsia := none, fontSize := none, fontColor := none,
          bold := some (.b false), italic := some (.b false) } :=
  ⟨c2_style_resolution.1 _ "base" _ "is_bold" _ (by decide),
   c2_style_resolution.2.1 _ "base" _ "font_size" (by decide),
   c2_style_resolution.2.2 _ "missing" (by decide)⟩

/-! ## C6: link rendering -/

/-- C6.  For an inline child tagged `a`, the renderer appends one run with
the link's visible text in the current (response) style, and appends the
annotation run `" (" ++ href ++ ")"` exactly when the `href` attribute is
non-empty and differs from the visible text; then the child's tail and the
remaining children follow as usual. -/
theorem c6_link_annotation (styles : StylesReg) (c : Elem) (rest : List Elem)
    (h : c.tag = "a") :
    addInlineSeq styles (c :: rest) =
      [⟨c.text.getD "", applyStyleProps styles "response" []⟩]
        ++ (if c.attrGet "href" "" ≠ "" ∧ c.attrGet "href" "" ≠ c.text.getD "" then
              [⟨" (" ++ c.attrGet "href" "" ++ ")", applyStyleProps styles "response" []⟩]
            else [])
        ++ optRun c.tail (applyStyleProps styles "response" [])
        ++ addInlineSeq styles rest := by
  have h1 : ¬(c.tag = "strong" ∨ c.tag = "b") := by rw [h]; decide
  have h2 : ¬(c.tag = "em" ∨ c.tag = "i") := by rw [h]; decide
  have h3 : ¬(c.tag = "code") := by rw [h]; decide
  rw [addInlineSeq, if_neg h1, if_neg h2, if_neg h3, if_pos h]

/-- Witness for C6: a link whose `href` differs from its text gets the
annotation run. -/
theorem c6_link_annotation_witness :
    addInlineSeq [] [Elem.mk "a" (some "x") [("href", "u")] [] none] =
      [⟨"x", applyStyleProps [] "response" []⟩,
       ⟨" (u)", applyStyleProps [] "response" []⟩] := by
  have := c6_link_annotation [] (.mk "a" (some "x") [("href", "u")] [] none) [] rfl
  simpa [Elem.attrGet, Elem.text, Elem.tail, optRun, truthyStr] using this

/-! ## C7: deterministic conversion -/

/-- C7.  Converting the same Markdown text against the same style registry
into two documents appends the same block sequence (same runs, texts and
effective styles, in order) regardless of the documents' prior content: the
conversion is deterministic over its inputs. -/
theorem c7_conversion_deterministic (ext : Ext) (styles : StylesReg)
    (text : String) (d1 d2 : List Block) :
    (addMarkdown ext styles d1 text).map (fun d => d.drop d1.length)
      = (addMarkdown ext styles d2 text).map (fun d => d.drop d2.length) := by
  unfold addMarkdown
  by_cases h : text = ""
  · simp [h, Except.map, List.drop_length]
  · rw [if_neg h, if_neg h]
    cases addMarkdownBlocks ext styles text <;>
      simp [Except.map, List.drop_left]

/-! ## C10: the export does not mutate its inputs -/

/-- C10.  The export threads the caller-owned inputs (record list and style
registry) through a state monad and only ever reads them: the final state
equals the initial state, whether the run succeeds or fails.  (Mutation of
Python objects is modelled by explicit state passing; the source
shallow-copies each record via `dict(res)` and only calls `.get` on the
style registry.) -/
theorem c10_inputs_unchanged (ext : Ext) (st : ExportInputs) :
    ((genererM ext).run st).2 = st := rfl

/-! ## C8: response text selection -/

/-- C8.  The Markdown rendered for a succeeded record is the
`clean_response` field when it is a present non-empty string, otherwise the
`response` field, otherwise the empty string; an empty-string
`clean_response` falls back to `response`. -/
theorem c8_response_selection :
    (∀ (item : Rec) (s : String),
        recLookup item "clean_response" = some (.str s) → s ≠ "" →
        responseTextOf item = .str s)
    ∧ (∀ item : Rec,
        recLookup item "clean_response" = none ∨
          recLookup item "clean_response" = some (.str "") →
        responseTextOf item = recGet item "response" (.str ""))
    ∧ (∀ item : Rec,
        recLookup item "clean_response" = none → recLookup item "response" = none →
        responseTextOf item = .str "") := by
  refine ⟨?_, ?_, ?_⟩
  · intro item s h hs
    simp [responseTextOf, recGet, h, PyVal.truthy, hs]
  · intro item h
    rcases h with h | h <;> simp [responseTextOf, recGet, h, PyVal.truthy]
  · intro item h h'
    simp [responseTextOf, recGet, h, h', PyVal.truthy]

/-- Witness for C8 at concrete records. -/
theorem c8_response_selection_witness :
    responseTextOf [("clean_response", .str "hi")] = .str "hi"
    ∧ responseTextOf [("clean_response", .str ""), ("response", .str "fb")]
        = recGet [("clean_response", .str ""), ("response", .str "fb")] "response" (.str "")
    ∧ responseTextOf [("status", .str "succeeded")] = .str "" :=
  ⟨c8_response_selection.1 _ "hi" rfl (by decide),
   c8_response_selection.2.1 _ (Or.inr rfl),
   c8_response_selection.2.2 _ rfl rfl⟩

/-! ## C9: the annex error paragraph -/

theorem blockText_optPara (st : Option String) (s : String) :
    blockText (Block.para st (if s ≠ "" then [plainRun s] else [])) = s := by
  by_cases h : s = ""
  · simp [h, blockText, blockTexts, String.join]
  · simp [h, blockText, blockTexts, String.join, plainRun]

/-- C9.  The annex error paragraph text is the 2-space-indented JSON
serialization of the error payload when the payload is a dict, and its
plain string form otherwise; a failed record with no `error` field yields
the literal text `"None"`. -/
theorem c9_error_paragraph_text :
    (∀ (item : Rec) (fs : List (String × PyVal)),
        recLookup item "error" = some (.dict fs) →
        blockText (errPara item) = jsonDumps (.dict fs))
    ∧ (∀ (item : Rec) (v : PyVal),
        recLookup item "error" = some v → v.isDict = false →
        blockText (errPara item) = pyStr v)
    ∧ (∀ item : Rec,
        recLookup item "error" = none → blockText (errPara item) = "None") := by
  refine ⟨?_, ?_, ?_⟩
  · intro item fs h
    rw [errPara]
    simp only [recGet, h, Option.getD_some, PyVal.isDict, if_pos]
    rw [show pyStr (.str (jsonDumps (.dict fs))) = jsonDumps (.dict fs) from rfl]
    exact blockText_optPara none _
  · intro item v h hv
    rw [errPara]
    simp only [recGet, h, Option.getD_some, hv, Bool.false_eq_true, if_neg,
      not_false_eq_true]
    exact blockText_optPara none _
  · intro item h
    rw [errPara]
    simp only [recGet, h, Option.getD_none]
    rw [show ((PyVal.none.isDict : Bool) = false) from rfl]
    simpa [pyStr, pyRepr] using blockText_optPara none (pyStr .none)

/-- Witness for C9: a structured payload, a plain payload, and a missing
payload, with the JSON dump evaluated on the structured one. -/
theorem c9_error_paragraph_text_witness :
    blockText (errPara [("error", .dict [("code", .int 500)])])
        = jsonDumps (.dict [("code", .int 500)])
    ∧ jsonDumps (.dict [("code", .int 500)]) = "\x7b\n  \"code\": 500\n\x7d"
    ∧ blockText (errPara [("error", .str "boom")]) = "boom"
    ∧ blockText (errPara [("custom_id", .str "c1")]) = "None" :=
  ⟨c9_error_paragraph_text.1 _ [("code", .int 500)] rfl,
   by decide,
   c9_error_paragraph_text.2.1 _ (.str "boom") rfl rfl,
   c9_error_paragraph_text.2.2 _ rfl⟩

/-! ## C5: parse failure is fatal, empty text is a no-op -/

theorem mapM_error_of_mem {α β : Type} (f : α → Except Unit β) (l : List α)
    (x : α) (hx : x ∈ l) (hf : f x = .error ()) :
    l.mapM f = .error () := by
  induction l with
  | nil => cases hx
  | cons a rest ih =>
      rcases List.mem_cons.mp hx with h | h
      · subst h
        rw [List.mapM_cons, hf]
        rfl
      · rw [List.mapM_cons]
        cases hfa : f a with
        | error e => cases e; rfl
        | ok b =>
            rw [ih h]
            rfl

/-- The assembler unfolded to its Except-level pipeline: partition the
records by status, convert every succeeded record, and append the annex
when the failed partition is non-empty. -/
theorem genererExportDocx_eq (ext : Ext) (rs : List Rec) (styles : StylesReg) :
    genererExportDocx ext rs styles =
      (do
        let succParts ← (rs.filter isSucc).mapM (succBlock ext styles)
        let annex ←
          if (rs.filter (fun r => ¬isSucc r)).isEmpty then
            Except.ok ([] : List Block)
          else do
            let failParts ← (rs.filter (fun r => ¬isSucc r)).mapM failBlock
            Except.ok ([Block.pageBreak, annexHeading] ++ failParts.flatten)
        Except.ok (succParts.flatten ++ annex)) := rfl

/-- C5.  Converting empty Markdown text is a no-op; and when the HTML
fragment of a (truthy) response fails to parse as a tree, the failure
propagates: the block conversion for that record errors, and the whole
export call returns the error instead of a byte stream. -/
theorem c5_parse_failure_fatal :
    (∀ (ext : Ext) (styles : StylesReg) (doc : List Block),
        addMarkdown ext styles doc "" = .ok doc)
    ∧ (∀ (ext : Ext) (styles : StylesReg) (item : Rec) (t : String),
        responseTextOf item = .str t → t ≠ "" →
        ext.parseTree (wrapRoot (ext.mdConvert t)) = none →
        succBlock ext styles item = .error ())
    ∧ (∀ (ext : Ext) (styles : StylesReg) (rs : List Rec) (item : Rec),
        item ∈ rs → isSucc item = true → succBlock ext styles item = .error () →
        genererExportDocx ext rs styles = .error ()) := by
  refine ⟨?_, ?_, ?_⟩
  · intro ext styles doc
    simp [addMarkdown]
  · intro ext styles item t ht hne hparse
    have hmd : addMarkdownVal ext styles (responseTextOf item) = .error () := by
      rw [ht, addMarkdownVal]
      simp [PyVal.truthy, hne, addMarkdownBlocks, hparse]
    unfold succBlock
    rw [hmd]
    cases hp : runText (recGet item "prompt_text" (.str "")) <;> rfl
  · intro ext styles rs item hmem hsucc herr
    rw [genererExportDocx_eq]
    have hmem' : item ∈ rs.filter isSucc := List.mem_filter.mpr ⟨hmem, hsucc⟩
    rw [mapM_error_of_mem _ _ item hmem' herr]
    rfl

/-- Witness for C5: an external parser that always fails makes a one-record
batch fail fatally, while the empty text stays a no-op. -/
theorem c5_parse_failure_fatal_witness :
    addMarkdown ⟨fun s => s, fun _ => none⟩ [] [] "" = .ok []
    ∧ succBlock ⟨fun s => s, fun _ => none⟩ []
        [("status", .str "succeeded"), ("response", .str "x")] = .error ()
    ∧ genererExportDocx ⟨fun s => s, fun _ => none⟩
        [[("status", .str "succeeded"), ("response", .str "x")]] [] = .error () :=
  ⟨c5_parse_failure_fatal.1 _ [] [],
   c5_parse_failure_fatal.2.1 _ [] _ "x" rfl (by decide) rfl,
   c5_parse_failure_fatal.2.2 _ [] _ _ (List.mem_singleton.mpr rfl) rfl
     (c5_parse_failure_fatal.2.1 _ [] _ "x" rfl (by decide) rfl)⟩

/-! ## C3: mixed batches -/

mutual
theorem processElement_no_pageBreak (styles : StylesReg) (e : Elem)
    (ls : Option String) : Block.pageBreak ∉ processElement styles e ls := by
  cases e with
  | mk tag text attrib children tail =>
      intro hmem
      rw [processElement] at hmem
      by_cases h1 : tag = "p" ∨ tag = "li"
      · rw [if_pos h1] at hmem
        rcases List.mem_cons.mp hmem with h | h
        · exact Block.noConfusion h
        · exact processNested_no_pageBreak styles children h
      · rw [if_neg h1] at hmem
        by_cases h2 : tag = "h1" ∨ tag = "h2" ∨ tag = "h3" ∨ tag = "h4" ∨
            tag = "h5" ∨ tag = "h6"
        · rw [if_pos h2] at hmem
          simp at hmem
        · rw [if_neg h2] at hmem
          by_cases h3 : tag = "ul"
          · rw [if_pos h3] at hmem
            exact processLis_no_pageBreak styles children "List Bullet" hmem
          · rw [if_neg h3] at hmem
            by_cases h4 : tag = "ol"
            · rw [if_pos h4] at hmem
              exact processLis_no_pageBreak styles children "List Number" hmem
            · rw [if_neg h4] at hmem
              by_cases h5 : tag = "pre"
              · rw [if_pos h5] at hmem
                simp at hmem
              · rw [if_neg h5] at hmem
                by_cases h6 : tag = "table"
                · rw [if_pos h6] at hmem
                  cases hr : children.filter (fun c => c.tag == "tr") with
                  | nil => rw [hr] at hmem; simp at hmem
                  | cons firstRow rowsRest => rw [hr] at hmem; simp at hmem
                · rw [if_neg h6] at hmem
                  by_cases h7 : truthyStr text
                  · rw [if_pos h7] at hmem
                    simp at hmem
                  · rw [if_neg h7] at hmem
                    simp at hmem
termination_by sizeOf e

theorem processNested_no_pageBreak (styles : StylesReg) (l : List Elem) :
    Block.pageBreak ∉ processNested styles l := by
  cases l with
  | nil => intro hmem; rw [processNested] at hmem; exact List.not_mem_nil _ hmem
  | cons c rest =>
      intro hmem
      rw [processNested] at hmem
      rcases List.mem_append.mp hmem with h | h
      · by_cases h1 : c.tag = "ul"
        · rw [if_pos h1] at h
          exact processElement_no_pageBreak styles c (some "List Bullet") h
        · rw [if_neg h1] at h
          by_cases h2 : c.tag = "ol"
          · rw [if_pos h2] at h
            exact processElement_no_pageBreak styles c (some "List Number") h
          · rw [if_neg h2] at h
            exact List.not_mem_nil _ h
      · exact processNested_no_pageBreak styles rest h
termination_by sizeOf l

theorem processLis_no_pageBreak (styles : StylesReg) (l : List Elem)
    (sty : String) : Block.pageBreak ∉ processLis styles l sty := by
  cases l with
  | nil => intro hmem; rw [processLis] at hmem; exact List.not_mem_nil _ hmem
  | cons c rest =>
      intro hmem
      rw [processLis] at hmem
      rcases List.mem_append.mp hmem with h | h
      · by_cases h1 : c.tag == "li"
        · rw [if_pos h1] at h
          exact processElement_no_pageBreak styles c (some sty) h
        · rw [if_neg h1] at h
          exact List.not_mem_nil _ h
      · exact processLis_no_pageBreak styles rest sty h
termination_by sizeOf l
end

theorem addMarkdownBlocks_no_pageBreak (ext : Ext) (styles : StylesReg)
    (t : String) (md : List Block) (h : addMarkdownBlocks ext styles t = .ok md) :
    Block.pageBreak ∉ md := by
  rw [addMarkdownBlocks] at h
  by_cases ht : t = ""
  · rw [if_pos ht] at h
    cases h
    exact List.not_mem_nil _
  · rw [if_neg ht] at h
    cases hp : ext.parseTree (wrapRoot (ext.mdConvert t)) with
    | none => rw [hp] at h; cases h
    | some root =>
        rw [hp] at h
        cases h
        intro hmem
        rcases List.mem_flatMap.mp hmem with ⟨e, _, he⟩
        exact processElement_no_pageBreak styles e none he

theorem addMarkdownVal_no_pageBreak (ext : Ext) (styles : StylesReg)
    (v : PyVal) (md : List Block) (h : addMarkdownVal ext styles v = .ok md) :
    Block.pageBreak ∉ md := by
  cases v with
  | str s =>
      rw [addMarkdownVal] at h
      split at h
      · cases h; exact List.not_mem_nil _
      · exact addMarkdownBlocks_no_pageBreak ext styles s md h
  | none =>
      rw [addMarkdownVal] at h
      · split at h
        · cases h; exact List.not_mem_nil _
        · cases h
      · exact fun s hs => PyVal.noConfusion hs
  | int n =>
      rw [addMarkdownVal] at h
      · split at h
        · cases h; exact List.not_mem_nil _
        · cases h
      · exact fun s hs => PyVal.noConfusion hs
  | bool b =>
      rw [addMarkdownVal] at h
      · split at h
        · cases h; exact List.not_mem_nil _
        · cases h
      · exact fun s hs => PyVal.noConfusion hs
  | dict fs =>
      rw [addMarkdownVal] at h
      · split at h
        · cases h; exact List.not_mem_nil _
        · cases h
      · exact fun s hs => PyVal.noConfusion hs
  | list l =>
      rw [addMarkdownVal] at h
      · split at h
        · cases h; exact List.not_mem_nil _
        · cases h
      · exact fun s hs => PyVal.noConfusion hs

theorem succBlock_no_pageBreak (ext : Ext) (styles : StylesReg) (item : Rec)
    (blocks : List Block) (h : succBlock ext styles item = .ok blocks) :
    Block.pageBreak ∉ blocks := by
  rw [succBlock] at h
  cases hp : runText (recGet item "prompt_text" (.str "")) with
  | error e => rw [hp] at h; cases h
  | ok pt =>
      rw [hp] at h
      cases hm : addMarkdownVal ext styles (responseTextOf item) with
      | error e => rw [hm] at h; cases h
      | ok md =>
          rw [hm] at h
          cases h
          intro hmem
          rcases List.mem_cons.mp hmem with hh | hh
          · exact Block.noConfusion hh
          rcases List.mem_append.mp hh with hh | hh
          · exact addMarkdownVal_no_pageBreak ext styles _ md hm hh
          · rcases List.mem_singleton.mp hh with hh
            exact Block.noConfusion hh

theorem failBlock_no_pageBreak (item : Rec) (blocks : List Block)
    (h : failBlock item = .ok blocks) : Block.pageBreak ∉ blocks := by
  rw [failBlock] at h
  cases ht : (failTitle item).truthy with
  | false =>
      rw [ht] at h
      simp only [Bool.false_eq_true, if_neg, not_false_eq_true] at h
      cases h
      intro hmem
      rcases List.mem_cons.mp hmem with hh | hh
      · exact Block.noConfusion hh
      rcases List.mem_singleton.mp hh with hh
      rw [errPara] at hh
      exact Block.noConfusion hh
  | true =>
      rw [ht] at h
      simp only [if_pos] at h
      cases hr : runText (failTitle item) with
      | error e => rw [hr] at h; cases h
      | ok t =>
          rw [hr] at h
          cases h
          intro hmem
          rcases List.mem_cons.mp hmem with hh | hh
          · exact Block.noConfusion hh
          rcases List.mem_singleton.mp hh with hh
          rw [errPara] at hh
          exact Block.noConfusion hh

theorem mapM_ok_forall {α β : Type} (f : α → Except Unit β) :
    ∀ (l : List α) (A : List β), l.mapM f = .ok A → ∀ b ∈ A, ∃ x ∈ l, f x = .ok b := by
  intro l
  induction l with
  | nil =>
      intro A h b hb
      rw [List.mapM_nil] at h
      cases h
      cases hb
  | cons a rest ih =>
      intro A h b hb
      rw [List.mapM_cons] at h
      cases hfa : f a with
      | error e => rw [hfa] at h; cases h
      | ok b0 =>
          rw [hfa] at h
          cases hrest : rest.mapM f with
          | error e => rw [hrest] at h; cases h
          | ok bs =>
              rw [hrest] at h
              cases h
              rcases List.mem_cons.mp hb with hh | hh
              · exact ⟨a, List.mem_cons_self a rest, hh ▸ hfa⟩
              · rcases ih bs hrest b hh with ⟨x, hx, hfx⟩
                exact ⟨x, List.mem_cons_of_mem a hx, hfx⟩

/-- C3.  A batch holding both succeeded and failed records produces the
succeeded blocks first (converted in input relative order), followed by
exactly one page break and the annex (heading plus the failed records'
blocks in input relative order); classification is by the status field
equalling the fixed marker `"succeeded"` (`isSucc`), anything else is
failed. -/
theorem c3_mixed_batch (ext : Ext) (rs : List Rec) (styles : StylesReg)
    (_hs : ∃ r ∈ rs, isSucc r = true) (hf : ∃ r ∈ rs, isSucc r = false) :
    genererExportDocx ext rs styles =
      (do
        let succParts ← (rs.filter isSucc).mapM (succBlock ext styles)
        let failParts ← (rs.filter (fun r => ¬isSucc r)).mapM failBlock
        Except.ok (succParts.flatten
          ++ [Block.pageBreak, annexHeading] ++ failParts.flatten))
    ∧ (∀ d, genererExportDocx ext rs styles = .ok d →
        d.countP (fun b => b == Block.pageBreak) = 1) := by
  have hfe : ((rs.filter (fun r => ¬isSucc r)).isEmpty) = false := by
    rcases hf with ⟨r, hr, hrf⟩
    have : r ∈ rs.filter (fun r => ¬isSucc r) :=
      List.mem_filter.mpr ⟨hr, by simp [hrf]⟩
    cases hl : rs.filter (fun r => ¬isSucc r) with
    | nil => rw [hl] at this; cases this
    | cons a l => rfl
  have hEq : genererExportDocx ext rs styles =
      (do
        let succParts ← (rs.filter isSucc).mapM (succBlock ext styles)
        let failParts ← (rs.filter (fun r => ¬isSucc r)).mapM failBlock
        Except.ok (succParts.flatten
          ++ [Block.pageBreak, annexHeading] ++ failParts.flatten)) := by
    rw [genererExportDocx_eq, hfe]
    cases hA : (rs.filter isSucc).mapM (succBlock ext styles) with
    | error e => rfl
    | ok A =>
        cases hB : (rs.filter (fun r => ¬isSucc r)).mapM failBlock with
        | error e => rfl
        | ok B =>
            show Except.ok (A.flatten ++ ([Block.pageBreak, annexHeading] ++ B.flatten))
              = Except.ok (A.flatten ++ [Block.pageBreak, annexHeading] ++ B.flatten)
            rw [List.append_assoc]
  refine ⟨hEq, ?_⟩
  intro d hd
  rw [hEq] at hd
  cases hA : (rs.filter isSucc).mapM (succBlock ext styles) with
  | error e => rw [hA] at hd; cases hd
  | ok A =>
      rw [hA] at hd
      cases hB : (rs.filter (fun r => ¬isSucc r)).mapM failBlock with
      | error e => rw [hB] at hd; cases hd
      | ok B =>
          rw [hB] at hd
          cases hd
          have hAz : (A.flatten).countP (fun b => b == Block.pageBreak) = 0 := by
            rw [List.countP_eq_zero]
            intro b hb
            rcases List.mem_flatten.mp hb with ⟨bl, hbl, hbbl⟩
            rcases mapM_ok_forall _ _ _ hA bl hbl with ⟨x, _, hfx⟩
            have hnpb := succBlock_no_pageBreak ext styles x bl hfx
            simp only [beq_iff_eq]
            intro hbeq
            rw [hbeq] at hbbl
            exact hnpb hbbl
          have hBz : (B.flatten).countP (fun b => b == Block.pageBreak) = 0 := by
            rw [List.countP_eq_zero]
            intro b hb
            rcases List.mem_flatten.mp hb with ⟨bl, hbl, hbbl⟩
            rcases mapM_ok_forall _ _ _ hB bl hbl with ⟨x, _, hfx⟩
            have hnpb := failBlock_no_pageBreak x bl hfx
            simp only [beq_iff_eq]
            intro hbeq
            rw [hbeq] at hbbl
            exact hnpb hbbl
          rw [List.countP_append, List.countP_append, hAz, hBz]
          decide

/-- Witness for C3: a two-record batch (one succeeded, one failed) exported
against a parser stub produces a document with exactly one page break. -/
theorem c3_mixed_batch_witness :
    ∃ d,
      genererExportDocx
          ⟨fun s => s,
           fun _ => some (.mk "root" none [] [.mk "p" (some "ok") [] [] none] none)⟩
          [[("status", .str "succeeded"), ("prompt_text", .str "Q1"),
            ("response", .str "m")],
           [("status", .str "failed"), ("prompt_text", .str "Q2"),
            ("error", .str "boom")]]
          [] = .ok d
      ∧ d.countP (fun b => b == Block.pageBreak) = 1 := by
  have h2 := (c3_mixed_batch
      ⟨fun s => s,
       fun _ => some (.mk "root" none [] [.mk "p" (some "ok") [] [] none] none)⟩
      [[("status", .str "succeeded"), ("prompt_text", .str "Q1"),
        ("response", .str "m")],
       [("status", .str "failed"), ("prompt_text", .str "Q2"),
        ("error", .str "boom")]]
      []
      ⟨[("status", .str "succeeded"), ("prompt_text", .str "Q1"),
        ("response", .str "m")], List.mem_cons_self _ _, rfl⟩
      ⟨[("status", .str "failed"), ("prompt_text", .str "Q2"),
        ("error", .str "boom")],
       List.mem_cons_of_mem _ (List.mem_cons_self _ _), rfl⟩).2
  cases hEq : genererExportDocx
      ⟨fun s => s,
       fun _ => some (.mk "root" none [] [.mk "p" (some "ok") [] [] none] none)⟩
      [[("status", .str "succeeded"), ("prompt_text", .str "Q1"),
        ("response", .str "m")],
       [("status", .str "failed"), ("prompt_text", .str "Q2"),
        ("error", .str "boom")]]
      [] with
  | error e =>
      cases e
      have hn : (genererExportDocx
          ⟨fun s => s,
           fun _ => some (.mk "root" none [] [.mk "p" (some "ok") [] [] none] none)⟩
          [[("status", .str "succeeded"), ("prompt_text", .str "Q1"),
            ("response", .str "m")],
           [("status", .str "failed"), ("prompt_text", .str "Q2"),
            ("error", .str "boom")]]
          []).toOption.isSome = true := by decide
      rw [hEq] at hn
      exact Bool.noConfusion hn
  | ok d =>
      exact ⟨d, rfl, h2 d hEq⟩

/-! ## C4: table rendering -/

theorem length_setCell (g : Grid) (r c : Nat) (v : List Run) :
    (setCell g r c v).length = g.length := by
  rw [setCell, List.length_set]

theorem rowLen_setCell (g : Grid) (r c : Nat) (v : List Run) (i : Nat) :
    ((setCell g r c v).getD i []).length = (g.getD i []).length := by
  rw [setCell]
  simp only [List.getD_eq_getElem?_getD, List.getElem?_set]
  by_cases h : r = i
  · subst h
    by_cases hl : r < g.length
    · simp [hl]
    · simp [hl, List.getElem?_eq_none (Nat.le_of_not_lt hl)]
  · simp [h]

theorem getCell_setCell_same (g : Grid) (r c : Nat) (v : List Run)
    (hr : r < g.length) (hc : c < (g.getD r []).length) :
    getCell (setCell g r c v) r c = v := by
  rw [getCell, setCell]
  simp only [List.getD_eq_getElem?_getD, List.getElem?_set_self hr,
    Option.getD_some]
  rw [List.getElem?_set_self (by simpa [List.getD_eq_getElem?_getD] using hc)]
  rfl

theorem getCell_setCell_ne (g : Grid) (r c : Nat) (v : List Run)
    (r' c' : Nat) (h : r' ≠ r ∨ c' ≠ c) :
    getCell (setCell g r c v) r' c' = getCell g r' c' := by
  rw [getCell, getCell, setCell]
  rcases h with h | h
  · simp [List.getD_eq_getElem?_getD, List.getElem?_set_ne (Ne.symm h)]
  · by_cases hr : r = r'
    · subst hr
      by_cases hl : r < g.length
      · simp [List.getD_eq_getElem?_getD, List.getElem?_set_self hl,
          List.getElem?_set_ne (Ne.symm h)]
      · rw [List.set_eq_of_length_le (Nat.le_of_not_lt hl)]
    · simp [List.getD_eq_getElem?_getD, List.getElem?_set_ne hr]

theorem fillRow_other (styles : StylesReg) (r : Nat) :
    ∀ (cells : List Elem) (g : Grid) (k r' c' : Nat), r' ≠ r →
      getCell (fillRow styles g r k cells) r' c' = getCell g r' c' := by
  intro cells
  induction cells with
  | nil => intro g k r' c' h; rfl
  | cons cell rest ih =>
      intro g k r' c' h
      rw [fillRow, ih _ _ _ _ h, getCell_setCell_ne _ _ _ _ _ _ (Or.inl h)]

theorem fillRow_length (styles : StylesReg) (r : Nat) :
    ∀ (cells : List Elem) (g : Grid) (k : Nat),
      (fillRow styles g r k cells).length = g.length := by
  intro cells
  induction cells with
  | nil => intro g k; rfl
  | cons cell rest ih =>
      intro g k
      rw [fillRow, ih, length_setCell]

theorem fillRow_rowLen (styles : StylesReg) (r : Nat) :
    ∀ (cells : List Elem) (g : Grid) (k i : Nat),
      ((fillRow styles g r k cells).getD i []).length = (g.getD i []).length := by
  intro cells
  induction cells with
  | nil => intro g k i; rfl
  | cons cell rest ih =>
      intro g k i
      rw [fillRow, ih, rowLen_setCell]

theorem fillRow_same (styles : StylesReg) (r : Nat) :
    ∀ (cells : List Elem) (g : Grid) (k c' : Nat),
      r < g.length → c' < (g.getD r []).length →
      getCell (fillRow styles g r k cells) r c' =
        if k ≤ c' then
          ((cells[c' - k]?).map (addInline styles)).getD (getCell g r c')
        else getCell g r c' := by
  intro cells
  induction cells with
  | nil =>
      intro g k c' hr hc
      rw [fillRow]
      split <;> simp
  | cons cell rest ih =>
      intro g k c' hr hc
      rw [fillRow]
      rw [ih (setCell g r k (addInline styles cell)) (k + 1) c'
        (by rw [length_setCell]; exact hr)
        (by rw [rowLen_setCell]; exact hc)]
      rcases Nat.lt_trichotomy c' k with hlt | heq | hgt
      · rw [if_neg (by omega), if_neg (by omega),
          getCell_setCell_ne _ _ _ _ _ _ (Or.inr (by omega))]
      · subst heq
        rw [if_neg (by omega), if_pos (by omega),
          getCell_setCell_same _ _ _ _ hr hc]
        simp [Nat.sub_self]
      · have hx : getCell (setCell g r k (addInline styles cell)) r c'
            = getCell g r c' :=
          getCell_setCell_ne _ _ _ _ _ _ (Or.inr (by omega))
        rw [if_pos (by omega), if_pos (by omega), hx]
        have hidx : c' - k = (c' - (k + 1)) + 1 := by omega
        rw [hidx, List.getElem?_cons_succ]

theorem fillRows_getCell (styles : StylesReg) :
    ∀ (rows : List Elem) (g : Grid) (i r c : Nat),
      r < g.length → c < (g.getD r []).length →
      getCell (fillRows styles g i rows) r c =
        if i ≤ r then
          ((rows[r - i]?).map
            (fun row => ((cellsOf row)[c]?.map (addInline styles)).getD
              (getCell g r c))).getD (getCell g r c)
        else getCell g r c := by
  intro rows
  induction rows with
  | nil =>
      intro g i r c hr hc
      rw [fillRows]
      split <;> simp
  | cons row rest ih =>
      intro g i r c hr hc
      rw [fillRows]
      rw [ih (fillRow styles g i 0 (cellsOf row)) (i + 1) r c
        (by rw [fillRow_length]; exact hr)
        (by rw [fillRow_rowLen]; exact hc)]
      rcases Nat.lt_trichotomy r i with hlt | heq | hgt
      · have hx : getCell (fillRow styles g i 0 (cellsOf row)) r c
            = getCell g r c := fillRow_other styles i _ g 0 r c (by omega)
        rw [if_neg (by omega), if_neg (by omega), hx]
      · subst heq
        rw [if_neg (by omega), if_pos (by omega)]
        rw [fillRow_same styles r (cellsOf row) g 0 c hr hc]
        rw [if_pos (Nat.zero_le c)]
        simp [Nat.sub_zero, Nat.sub_self]
      · have hx : getCell (fillRow styles g i 0 (cellsOf row)) r c
            = getCell g r c := fillRow_other styles i _ g 0 r c (by omega)
        simp only [hx]
        rw [if_pos (by omega), if_pos (by omega)]
        have hidx : r - i = (r - (i + 1)) + 1 := by omega
        rw [hidx, List.getElem?_cons_succ]

theorem initGrid_length (R C : Nat) : (initGrid R C).length = R := by
  rw [initGrid, List.length_replicate]

theorem initGrid_rowLen (R C r : Nat) (hr : r < R) :
    ((initGrid R C).getD r []).length = C := by
  rw [initGrid]
  simp [List.getD_eq_getElem?_getD, List.getElem?_replicate, hr]

theorem getCell_initGrid (R C r c : Nat) : getCell (initGrid R C) r c = [] := by
  rw [getCell, initGrid]
  simp only [List.getD_eq_getElem?_getD, List.getElem?_replicate]
  by_cases h : r < R
  · simp only [h, if_true]
    by_cases h2 : c < C <;> simp [h2]
  · simp [h]

/-- C4.  A `table` element with at least one direct `tr` row renders as one
table block whose column count is the number of `th` cells of the first row
(or its `td` cells when it has no `th`); every cell `(r, c)` of the R×C
grid holds exactly the rendering of row `r`'s `c`-th header/data cell, so
cells of later rows beyond the column count are silently ignored (they
influence no grid cell, and the renderer is total: no error). -/
theorem c4_table_columns_and_excess_cells (styles : StylesReg) (e : Elem)
    (firstRow : Elem) (restRows : List Elem)
    (htag : e.tag = "table")
    (hrows : e.findall "tr" = firstRow :: restRows) :
    processElement styles e none =
      [Block.table (firstRow :: restRows).length (tableCols firstRow)
        (fillRows styles
          (initGrid (firstRow :: restRows).length (tableCols firstRow))
          0 (firstRow :: restRows))]
    ∧ tableCols firstRow
        = (if (firstRow.findall "th").length ≠ 0
           then (firstRow.findall "th").length
           else (firstRow.findall "td").length)
    ∧ (∀ r c, r < (firstRow :: restRows).length → c < tableCols firstRow →
        getCell (fillRows styles
            (initGrid (firstRow :: restRows).length (tableCols firstRow))
            0 (firstRow :: restRows)) r c
          = (((firstRow :: restRows)[r]?).map
              (fun row => ((cellsOf row)[c]?.map (addInline styles)).getD [])).getD
              []) := by
  refine ⟨?_, rfl, ?_⟩
  · cases e with
    | mk tag text attrib children tail =>
        rw [Elem.tag] at htag
        subst htag
        simp only [Elem.findall, Elem.children] at hrows
        rw [processElement]
        rw [if_neg (by decide), if_neg (by decide), if_neg (by decide),
          if_neg (by decide), if_neg (by decide), if_pos rfl]
        rw [hrows]
  · intro r c hr hc
    rw [fillRows_getCell styles (firstRow :: restRows)
      (initGrid (firstRow :: restRows).length (tableCols firstRow))
      0 r c
      (by rw [initGrid_length]; exact hr)
      (by rw [initGrid_rowLen _ _ _ hr]; exact hc)]
    rw [if_pos (Nat.zero_le r)]
    simp only [Nat.sub_zero, getCell_initGrid]

/-- Witness for C4: a two-header table whose second row has three data
cells renders as a 2×2 table; the third cell influences no grid cell. -/
theorem c4_table_columns_and_excess_cells_witness :
    processElement []
        (.mk "table" none []
          [.mk "tr" none []
            [.mk "th" (some "a") [] [] none, .mk "th" (some "c") [] [] none] none,
           .mk "tr" none []
            [.mk "td" (some "1") [] [] none, .mk "td" (some "2") [] [] none,
             .mk "td" (some "3") [] [] none] none] none) none
      = [Block.table 2 2
          [[[⟨"a", { bold := some (.b false), italic := some (.b false) }⟩],
            [⟨"c", { bold := some (.b false), italic := some (.b false) }⟩]],
           [[⟨"1", { bold := some (.b false), italic := some (.b false) }⟩],
            [⟨"2", { bold := some (.b false), italic := some (.b false) }⟩]]]]
    ∧ getCell (fillRows [] (initGrid 2 2) 0
          [.mk "tr" none []
            [.mk "th" (some "a") [] [] none, .mk "th" (some "c") [] [] none] none,
           .mk "tr" none []
            [.mk "td" (some "1") [] [] none, .mk "td" (some "2") [] [] none,
             .mk "td" (some "3") [] [] none] none]) 1 1
      = [⟨"2", { bold := some (.b false), italic := some (.b false) }⟩] := by
  refine ⟨?_, ?_⟩
  · exact ((c4_table_columns_and_excess_cells []
      (.mk "table" none []
        [.mk "tr" none []
          [.mk "th" (some "a") [] [] none, .mk "th" (some "c") [] [] none] none,
         .mk "tr" none []
          [.mk "td" (some "1") [] [] none, .mk "td" (some "2") [] [] none,
           .mk "td" (some "3") [] [] none] none] none)
      (.mk "tr" none []
        [.mk "th" (some "a") [] [] none, .mk "th" (some "c") [] [] none] none)
      [.mk "tr" none []
        [.mk "td" (some "1") [] [] none, .mk "td" (some "2") [] [] none,
         .mk "td" (some "3") [] [] none] none]
      rfl rfl).1).trans (by decide)
  · exact (((c4_table_columns_and_excess_cells []
      (.mk "table" none []
        [.mk "tr" none []
          [.mk "th" (some "a") [] [] none, .mk "th" (some "c") [] [] none] none,
         .mk "tr" none []
          [.mk "td" (some "1") [] [] none, .mk "td" (some "2") [] [] none,
           .mk "td" (some "3") [] [] none] none] none)
      (.mk "tr" none []
        [.mk "th" (some "a") [] [] none, .mk "th" (some "c") [] [] none] none)
      [.mk "tr" none []
        [.mk "td" (some "1") [] [] none, .mk "td" (some "2") [] [] none,
         .mk "td" (some "3") [] [] none] none]
      rfl rfl).2.2) 1 1 (by decide) (by decide)).trans (by decide)

/-! ## C1: leaf-text preservation -/

theorem map_filter_textRun (s : Option String) (props : RunProps) :
    (([(⟨s.getD "", props⟩ : Run)]).map Run.text).filter (fun t => t ≠ "")
      = optText s := by
  cases s with
  | none => simp [optText]
  | some v =>
      by_cases h : v = "" <;> simp [optText, h]

theorem map_filter_optRun (s : Option String) (props : RunProps) :
    ((optRun s props).map Run.text).filter (fun t => t ≠ "") = optText s := by
  cases s with
  | none => simp [optRun, optText, truthyStr]
  | some v =>
      by_cases h : v = "" <;> simp [optRun, optText, truthyStr, h]

theorem inlineOkB_parts (tag : String) (text : Option String)
    (attrib : List (String × String)) (children : List Elem)
    (tail : Option String)
    (h : inlineOkB (.mk tag text attrib children tail) = true) :
    (opaqueInlineTag tag = true → children = [])
    ∧ (tag = "a" →
        (Elem.mk tag text attrib children tail).attrGet "href" "" = ""
        ∨ (Elem.mk tag text attrib children tail).attrGet "href" ""
            = text.getD "")
    ∧ inlineOkSeq children = true := by
  rw [inlineOkB] at h
  rcases Bool.and_eq_true_iff.mp h with ⟨h12, h3⟩
  rcases Bool.and_eq_true_iff.mp h12 with ⟨h1, h2⟩
  refine ⟨?_, ?_, h3⟩
  · intro hop
    rcases Bool.or_eq_true_iff.mp h1 with hh | hh
    · rw [hop] at hh; cases hh
    · exact List.isEmpty_iff.mp hh
  · intro ha
    rcases Bool.or_eq_true_iff.mp h2 with hh | hh
    · rw [show (tag == "a") = true from by simp [ha]] at hh; cases hh
    · rcases Bool.or_eq_true_iff.mp hh with hh | hh
      · exact Or.inl (by simpa using hh)
      · exact Or.inr (by simpa using hh)

theorem docTexts_childless (tag : String) (text : Option String)
    (attrib : List (String × String)) (tail : Option String) :
    docTexts (.mk tag text attrib [] tail) = optText text := by
  rw [docTexts, seqTexts, List.append_nil]

mutual
theorem addInline_texts (styles : StylesReg) (e : Elem)
    (h : inlineOkB e = true) :
    ((addInline styles e).map Run.text).filter (fun t => t ≠ "") = docTexts e := by
  cases e with
  | mk tag text attrib children tail =>
      rw [addInline, docTexts, List.map_append, List.filter_append,
        map_filter_optRun]
      rw [addInlineSeq_texts styles children
        (inlineOkB_parts tag text attrib children tail h).2.2]
termination_by sizeOf e

theorem addInlineSeq_texts (styles : StylesReg) (l : List Elem)
    (h : inlineOkSeq l = true) :
    ((addInlineSeq styles l).map Run.text).filter (fun t => t ≠ "") = seqTexts l := by
  cases l with
  | nil => rfl
  | cons c rest =>
      rw [inlineOkSeq] at h
      rcases Bool.and_eq_true_iff.mp h with ⟨hc, hrest⟩
      rw [addInlineSeq, seqTexts]
      rw [List.map_append, List.filter_append, List.map_append,
        List.filter_append, map_filter_optRun,
        addInlineSeq_texts styles rest hrest]
      have hbranch :
          (((if c.tag = "strong" ∨ c.tag = "b" then
              [⟨c.text.getD "",
                applyStyleProps styles "response" [("is_bold", .b true)]⟩]
            else if c.tag = "em" ∨ c.tag = "i" then
              [⟨c.text.getD "",
                applyStyleProps styles "response" [("is_italic", .b true)]⟩]
            else if c.tag = "code" then
              [⟨c.text.getD "",
                { applyStyleProps styles "response" [] with
                    fontName := some (.s "Consolas"),
                    eastAsia := some (.s "Consolas") }⟩]
            else if c.tag = "a" then
              let text := c.text.getD ""
              let href := c.attrGet "href" ""
              [⟨text, applyStyleProps styles "response" []⟩]
                ++ (if href ≠ "" ∧ href ≠ text then
                      [⟨" (" ++ href ++ ")", applyStyleProps styles "response" []⟩]
                    else [])
            else
              addInline styles c : List Run)).map Run.text).filter
            (fun t => t ≠ "") = docTexts c := by
        cases c with
        | mk ctag ctext cattrib cchildren ctail =>
            rcases inlineOkB_parts ctag ctext cattrib cchildren ctail hc
              with ⟨hop, ha, hseq⟩
            by_cases h1 : (Elem.mk ctag ctext cattrib cchildren ctail).tag
                = "strong"
              ∨ (Elem.mk ctag ctext cattrib cchildren ctail).tag = "b"
            · rw [if_pos h1]
              rw [Elem.tag] at h1
              rw [hop (by rcases h1 with h1 | h1 <;>
                    simp [opaqueInlineTag, h1]),
                docTexts_childless]
              exact map_filter_textRun _ _
            · rw [if_neg h1]
              by_cases h2 : (Elem.mk ctag ctext cattrib cchildren ctail).tag = "em"
                ∨ (Elem.mk ctag ctext cattrib cchildren ctail).tag = "i"
              · rw [if_pos h2]
                rw [Elem.tag] at h2
                rw [hop (by rcases h2 with h2 | h2 <;>
                      simp [opaqueInlineTag, h2]),
                  docTexts_childless]
                exact map_filter_textRun _ _
              · rw [if_neg h2]
                by_cases h3 : (Elem.mk ctag ctext cattrib cchildren ctail).tag
                    = "code"
                · rw [if_pos h3]
                  rw [Elem.tag] at h3
                  rw [hop (by simp [opaqueInlineTag, h3]), docTexts_childless]
                  exact map_filter_textRun _ _
                · rw [if_neg h3]
                  by_cases h4 : (Elem.mk ctag ctext cattrib cchildren ctail).tag
                      = "a"
                  · rw [if_pos h4]
                    rw [Elem.tag] at h4
                    have hhref :
                        ¬((Elem.mk ctag ctext cattrib cchildren ctail).attrGet
                            "href" "" ≠ ""
                          ∧ (Elem.mk ctag ctext cattrib cchildren ctail).attrGet
                              "href" "" ≠ ctext.getD "") := by
                      rcases ha h4 with hh | hh
                      · intro hcon; exact hcon.1 hh
                      · intro hcon; exact hcon.2 (by simpa [Elem.text] using hh)
                    simp only [Elem.text]
                    rw [if_neg hhref, List.append_nil]
                    rw [hop (by simp [opaqueInlineTag, h4]), docTexts_childless]
                    exact map_filter_textRun _ _
                  · rw [if_neg h4]
                    exact addInline_texts styles
                      (.mk ctag ctext cattrib cchildren ctail) hc
      rw [hbranch]
termination_by sizeOf l
end

theorem noBannedB_parts (e : Elem) (h : noBannedB e = true) :
    bannedTag e.tag = false ∧ noBannedSeq e.children = true := by
  cases e with
  | mk tag text attrib children tail =>
      rw [noBannedB] at h
      rcases Bool.and_eq_true_iff.mp h with ⟨h1, h2⟩
      exact ⟨by simpa using h1, h2⟩

theorem bannedTag_ne (t : String) (h : bannedTag t = false) :
    t ≠ "table" ∧ t ≠ "ul" ∧ t ≠ "ol" ∧ t ≠ "pre" ∧ t ≠ "h1" ∧ t ≠ "h2"
    ∧ t ≠ "h3" ∧ t ≠ "h4" ∧ t ≠ "h5" ∧ t ≠ "h6" := by
  rw [bannedTag] at h
  simp at h
  tauto

theorem processNested_of_noBanned (styles : StylesReg) :
    ∀ l : List Elem, noBannedSeq l = true → processNested styles l = [] := by
  intro l
  induction l with
  | nil => intro h; rfl
  | cons c rest ih =>
      intro h
      rw [noBannedSeq] at h
      rcases Bool.and_eq_true_iff.mp h with ⟨hc, hrest⟩
      have hne := bannedTag_ne c.tag (noBannedB_parts c hc).1
      rw [processNested, if_neg hne.2.1, if_neg hne.2.2.1, ih hrest,
        List.append_nil]

theorem renderedTexts_singlePara (sty : Option String) (runs : List Run) :
    renderedTexts [Block.para sty runs]
      = (runs.map Run.text).filter (fun t => t ≠ "") := by
  rw [renderedTexts]
  simp [blockTexts]

/-- C1 (amended).  For a tree with no `table`/`ul`/`ol`/`pre`/heading tags
in which, additionally, every `strong`/`b`/`em`/`i`/`code`/`a` element is
childless, every `a` element's `href` is empty or equal to its visible
text, and whose root is a `p`/`li` element or has truthy direct text, the
block renderer emits every truthy leaf text (including tail text) as
exactly one non-empty run, in document order, with no loss and no
duplication. -/
theorem c1_leaf_text_preservation (styles : StylesReg) (e : Elem)
    (hb : noBannedB e = true) (hi : inlineOkB e = true)
    (hr : rootOkB e = true) :
    renderedTexts (processElement styles e none) = docTexts e := by
  cases e with
  | mk tag text attrib children tail =>
      have hparts := noBannedB_parts (.mk tag text attrib children tail) hb
      simp only [Elem.tag, Elem.children] at hparts
      have hne := bannedTag_ne tag hparts.1
      rw [processElement]
      by_cases h1 : tag = "p" ∨ tag = "li"
      · rw [if_pos h1]
        rw [processNested_of_noBanned styles children hparts.2]
        rw [renderedTexts_singlePara]
        exact addInline_texts styles _ hi
      · rw [if_neg h1]
        rw [if_neg (by
          rintro (h | h | h | h | h | h)
          · exact hne.2.2.2.2.1 h
          · exact hne.2.2.2.2.2.1 h
          · exact hne.2.2.2.2.2.2.1 h
          · exact hne.2.2.2.2.2.2.2.1 h
          · exact hne.2.2.2.2.2.2.2.2.1 h
          · exact hne.2.2.2.2.2.2.2.2.2 h)]
        rw [if_neg hne.2.1, if_neg hne.2.2.1, if_neg hne.2.2.2.1,
          if_neg hne.1]
        have htr : truthyStr text = true := by
          rw [rootOkB] at hr
          simp only [Elem.tag, Elem.text] at hr
          simpa [show tag ≠ "p" from fun hh => h1 (Or.inl hh),
            show tag ≠ "li" from fun hh => h1 (Or.inr hh)] using hr
        rw [if_pos htr]
        rw [renderedTexts_singlePara]
        exact addInline_texts styles _ hi

/-- Counterexample to C1 as stated: the tree `p > strong("x") > em("y")`
contains none of the excluded tags, yet the renderer drops the nested
`em` text (the `strong` branch of `_add_inline` reads only the child's
direct text), so "y" is lost. -/
theorem c1_counterexample :
    noBannedB (.mk "p" none []
        [.mk "strong" (some "x") [] [.mk "em" (some "y") [] [] none] none]
        none) = true
    ∧ renderedTexts (processElement []
          (.mk "p" none []
            [.mk "strong" (some "x") [] [.mk "em" (some "y") [] [] none] none]
            none) none)
        ≠ docTexts (.mk "p" none []
            [.mk "strong" (some "x") [] [.mk "em" (some "y") [] [] none] none]
            none) :=
  ⟨by decide, by decide⟩

/-- Witness for the amended C1 on a `p` holding emphasis, tail text and an
unrecognized inline wrapper. -/
theorem c1_leaf_text_preservation_witness :
    renderedTexts (processElement []
        (.mk "p" (some "t0") []
          [.mk "em" (some "it") [] [] (some " tail"),
           .mk "span" (some "s") [] [] none] none) none)
      = ["t0", "it", " tail", "s"] :=
  (c1_leaf_text_preservation []
    (.mk "p" (some "t0") []
      [.mk "em" (some "it") [] [] (some " tail"),
       .mk "span" (some "s") [] [] none] none)
    (by decide) (by decide) (by decide)).trans (by decide)

end Exporter
